import Mathlib

/-!
Shallow embedding of the maze-escape core: `src/MazeMap.ts` and `src/Player.ts`.

Conventions of the embedding:
* JS numbers that hold tile codes or pixel coordinates are modelled as `Int`
  (all arithmetic performed by the program on them is exact integer
  arithmetic for the configurations the claims quantify over).
* A JS array read `l[i]` is modelled by `arrGet`, returning `none` for the
  `undefined` read outside `[0, length)`.
* A JS value of type `boolean | undefined` is modelled as `Option Bool`
  (`none` = `undefined`); `truthy` is JS truthiness of such a value.
* The embedding is purely functional, so no operation mutates the grid or
  the agent unless it returns the updated value; queries such as
  `getTile`, `isEndPosition`, `wallCollision` and `checkWinCondition`
  return plain values and hence never modify any state, and being total
  functions they never fail or throw.
-/

/-- JS array indexing `l[i]`: `undefined` (`none`) outside `[0, length)`. -/
def arrGet {α : Type} (l : List α) (i : Int) : Option α :=
  if 0 ≤ i then l.get? i.toNat else none

/-- JS truthiness of a `boolean | undefined` value; `undefined` is falsy. -/
def truthy (v : Option Bool) : Bool := v.getD false

/-- `Direction` enum from `Player.ts`. -/
inductive Direction where
  | UP
  | DOWN
  | LEFT
  | RIGHT
deriving DecidableEq, Repr

/-- `MazeMap.wallCollision`: e.g. for `UP` the source returns
`this.map[row - 1] && this.map[row - 1][col] === 1`.  The JS expression
evaluates to `undefined` (`none`) when the indexed row is absent and to the
boolean `this.map[r][c] === 1` (`some b`) otherwise; an absent cell inside a
present row compares `undefined === 1`, i.e. `false`. -/
def wallCollision (m : List (List Int)) (col row : Int) : Direction → Option Bool
  | .UP => (arrGet m (row - 1)).map (fun r => decide (arrGet r col = some 1))
  | .DOWN => (arrGet m (row + 1)).map (fun r => decide (arrGet r col = some 1))
  | .LEFT => (arrGet m row).map (fun r => decide (arrGet r (col - 1) = some 1))
  | .RIGHT => (arrGet m row).map (fun r => decide (arrGet r (col + 1) = some 1))

/-- `MazeMap.getTile`: bounds check
`row < 0 || col < 0 || row >= this.map.length || col >= this.map[0].length`
returns the sentinel `-1`; otherwise the raw read `this.map[row][col]`,
which is `undefined` (`none`) past the end of a short (ragged) row.
(The JS `map[0]` access is never reached when the map is empty because the
`row >= this.map.length` disjunct short-circuits first.) -/
def getTile (m : List (List Int)) (col row : Int) : Option Int :=
  if row < 0 ∨ col < 0 ∨ (m.length : Int) ≤ row ∨ ((m.headD []).length : Int) ≤ col then
    some (-1)
  else
    (m.getD row.toNat []).get? col.toNat

/-- `MazeMap.isEndPosition`: same bounds check as `getTile`, then
`this.map[row][col] === 3` (`undefined === 3` is `false`). -/
def isEndPosition (m : List (List Int)) (col row : Int) : Bool :=
  if row < 0 ∨ col < 0 ∨ (m.length : Int) ≤ row ∨ ((m.headD []).length : Int) ≤ col then
    false
  else
    decide ((m.getD row.toNat []).get? col.toNat = some 3)

/-- The neighbouring cell probed by `wallCollision` for each direction. -/
def neighborCell (col row : Int) : Direction → Int × Int
  | .UP => (col, row - 1)
  | .DOWN => (col, row + 1)
  | .LEFT => (col - 1, row)
  | .RIGHT => (col + 1, row)

/-! ## Maze parsing (`MazeMap.loadMap`) -/

/-- The mutable `startX/startY/endX/endY` fields threaded through parsing;
all four are initialised to `0` by the field initialisers. -/
structure ParseSt where
  startX : Int
  startY : Int
  endX : Int
  endY : Int
deriving DecidableEq, Repr

/-- One character of the classification chain in `loadMap` (lines 56-74):
returns the pushed tile code and the updated coordinate fields.  The start
glyph records `(x * tileSize + tileSize / 2, y * tileSize)` and pushes `0`;
the end glyph records the same convention and pushes `3`. -/
def parseChar (ts : Int) (x y : Nat) (ch : Char) (st : ParseSt) : Int × ParseSt :=
  if ch = '○' then (2, st)
  else if ch = '·' then (0, st)
  else if ch = '┌' ∨ ch = '┐' ∨ ch = '┘' ∨ ch = '└' ∨ ch = '│' ∨ ch = '─' ∨ ch = '=' then (1, st)
  else if ch = 'X' then (0, { st with startX := (x : Int) * ts + ts / 2, startY := (y : Int) * ts })
  else if ch = 'E' then (3, { st with endX := (x : Int) * ts + ts / 2, endY := (y : Int) * ts })
  else (0, st)

/-- The inner `for (let x = 0; ...)` loop of `loadMap`, building one line. -/
def parseRow (ts : Int) (y : Nat) : Nat → List Char → ParseSt → List Int × ParseSt
  | _, [], st => ([], st)
  | x, ch :: rest, st =>
    let c := parseChar ts x y ch st
    let r := parseRow ts y (x + 1) rest c.2
    (c.1 :: r.1, r.2)

/-- The outer `for (let y = 0; ...)` loop of `loadMap`. -/
def parseRows (ts : Int) : Nat → List (List Char) → ParseSt → List (List Int) × ParseSt
  | _, [], st => ([], st)
  | y, rw :: rest, st =>
    let c := parseRow ts y 0 rw st
    let r := parseRows ts (y + 1) rest c.2
    (c.1 :: r.1, r.2)

/-- `map[y][x] === 0 || map[y][x] === 2` on a JS read (`undefined` fails both). -/
def isPathCell (v : Option Int) : Bool := v == some 0 || v == some 2

/-- The inner fallback loop `for (let x = lastCol; x >= 0; x--)` of
`loadMap`: scan cells `n - 1, n - 2, ..., 0` of a row, returning the first
index holding `0` or `2` (the loop breaks there). -/
def findLastIdx (rw : List Int) : Nat → Option Nat
  | 0 => none
  | n + 1 => if isPathCell (rw.get? n) then some n else findLastIdx rw n

/-- `map[y][x] = 3`, the promotion assignment in the fallback scan. -/
def setCell (m : List (List Int)) (y x : Nat) (v : Int) : List (List Int) :=
  m.set y ((m.getD y []).set x v)

/-- State of the fallback scan: the `endX`/`endY` fields and the map. -/
structure ScanSt where
  endX : Int
  endY : Int
  map : List (List Int)
deriving DecidableEq, Repr

/-- The outer fallback loop `for (let y = lastRow; y >= 0; y--)` of
`loadMap`: fuel `y + 1` processes row `y`; after the inner loop the source
breaks out when `this.endX !== 0 || this.endY !== 0`. -/
def scanStep (ts : Int) (cols : Nat) : Nat → ScanSt → ScanSt
  | 0, st => st
  | y + 1, st =>
    let st2 : ScanSt :=
      match findLastIdx (st.map.getD y []) cols with
      | some x => ⟨(x : Int) * ts + ts / 2, (y : Int) * ts, setCell st.map y x 3⟩
      | none => st
    if st2.endX = 0 ∧ st2.endY = 0 then scanStep ts cols y st2 else st2

/-- The state of a constructed `MazeMap`. -/
structure Maze where
  map : List (List Int)
  startX : Int
  startY : Int
  endX : Int
  endY : Int
deriving DecidableEq, Repr

/-- `MazeMap.loadMap` on the layout already split at newlines into rows of
characters: classify every character, then, when `endX === 0 && endY === 0`
(no end glyph recorded), run the fallback scan from the last row upward and
within each row from column `map[0].length - 1` leftward. -/
def loadMap (ts : Int) (rows : List (List Char)) : Maze :=
  let p := parseRows ts 0 rows ⟨0, 0, 0, 0⟩
  if p.2.endX = 0 ∧ p.2.endY = 0 then
    let fin := scanStep ts (p.1.headD []).length p.1.length ⟨p.2.endX, p.2.endY, p.1⟩
    ⟨fin.map, p.2.startX, p.2.startY, fin.endX, fin.endY⟩
  else
    ⟨p.1, p.2.startX, p.2.startY, p.2.endX, p.2.endY⟩

/-- `MazeMap.getStartPosition`. -/
def getStartPosition (mz : Maze) : Int × Int := (mz.startX, mz.startY)

/-- `MazeMap.getEndPosition`. -/
def getEndPosition (mz : Maze) : Int × Int := (mz.endX, mz.endY)

/-! ## The agent (`Player.ts`) -/

/-- `Player` state.  The constructor fixes `speed = 2`; `tileSize` is the
constructor argument (`32` in `Game.ts`).  The canvas context and the map
reference are externals: the map is passed explicitly to each operation. -/
structure Player where
  x : Int
  y : Int
  speed : Int
  direction : Direction
  requestedDirection : Direction
  tileSize : Int
deriving DecidableEq, Repr

/-- `Number.isInteger(a / b)` for integer `a`, `b`: true iff `b` is nonzero
and divides `a` (division by zero gives `Infinity`/`NaN`, not an integer). -/
def isIntDiv (a b : Int) : Bool := b != 0 && a % b == 0

/-- The four pairwise comparisons in `Player.move` that detect an exact
reversal of direction (first argument: current, second: requested). -/
def isReversal : Direction → Direction → Bool
  | .DOWN, .UP => true
  | .UP, .DOWN => true
  | .RIGHT, .LEFT => true
  | .LEFT, .RIGHT => true
  | _, _ => false

/-- The direction-change arbitration at the top of `Player.move`: a reversal
is honoured unconditionally; otherwise the requested direction is honoured
iff `col` and `row` are integers and `wallCollision` in the requested
direction is falsy.  `col`/`row` are only consumed when the alignment
conjuncts hold, where integer division is exact. -/
def moveDir (m : List (List Int)) (p : Player) : Direction :=
  if p.requestedDirection ≠ p.direction then
    if isReversal p.direction p.requestedDirection then p.requestedDirection
    else if isIntDiv p.x p.tileSize && isIntDiv p.y p.tileSize &&
        !truthy (wallCollision m (p.x / p.tileSize) (p.y / p.tileSize) p.requestedDirection) then
      p.requestedDirection
    else p.direction
  else p.direction

/-- `Player.move`: after arbitration, the motion step advances by `speed`
along the active direction unless the agent is tile-aligned on both axes
and `wallCollision` ahead is truthy.  (The source's `if (this.direction)`
guard is always true: the enum values are non-empty strings.) -/
def move (m : List (List Int)) (p : Player) : Player :=
  let d := moveDir m p
  if isIntDiv p.x p.tileSize && isIntDiv p.y p.tileSize &&
      truthy (wallCollision m (p.x / p.tileSize) (p.y / p.tileSize) d) then
    { p with direction := d }
  else
    match d with
    | .UP => { p with direction := d, y := p.y - p.speed }
    | .DOWN => { p with direction := d, y := p.y + p.speed }
    | .LEFT => { p with direction := d, x := p.x - p.speed }
    | .RIGHT => { p with direction := d, x := p.x + p.speed }

/-- `Player.checkWinCondition`: `Math.floor` of the coordinate over the tile
size (floor division), then the cell and its four orthogonal neighbours are
tested with `isEndPosition`. -/
def checkWinCondition (m : List (List Int)) (p : Player) : Bool :=
  let row := Int.fdiv p.y p.tileSize
  let col := Int.fdiv p.x p.tileSize
  isEndPosition m col row || isEndPosition m (col + 1) row || isEndPosition m (col - 1) row ||
    isEndPosition m col (row + 1) || isEndPosition m col (row - 1)

/-! ## Basic lemmas about the query operations -/

lemma arrGet_neg {α : Type} (l : List α) (i : Int) (h : i < 0) : arrGet l i = none := by
  unfold arrGet
  rw [if_neg (by omega)]

lemma arrGet_nonneg {α : Type} (l : List α) (i : Int) (h : 0 ≤ i) :
    arrGet l i = l.get? i.toNat := by
  unfold arrGet
  rw [if_pos h]

lemma get?_eq_some_getD {α : Type} (l : List α) (n : Nat) (dft : α) (h : n < l.length) :
    l.get? n = some (l.getD n dft) := by
  simp [List.getD_eq_getElem?_getD, List.get?_eq_get h, List.getElem?_eq_getElem h]

lemma getTile_oob (m : List (List Int)) (col row : Int)
    (h : row < 0 ∨ col < 0 ∨ (m.length : Int) ≤ row ∨ ((m.headD []).length : Int) ≤ col) :
    getTile m col row = some (-1) := by
  unfold getTile
  rw [if_pos h]

lemma getTile_in (m : List (List Int)) (col row : Int)
    (h : ¬(row < 0 ∨ col < 0 ∨ (m.length : Int) ≤ row ∨ ((m.headD []).length : Int) ≤ col)) :
    getTile m col row = (m.getD row.toNat []).get? col.toNat := by
  unfold getTile
  rw [if_neg h]

lemma isEnd_getTile (m : List (List Int)) (col row : Int) :
    isEndPosition m col row = true ↔ getTile m col row = some 3 := by
  unfold isEndPosition getTile
  split
  · simp
  · simp

lemma truthy_ne_some_true {v : Option Bool} (h : truthy v = false) : v ≠ some true := by
  intro hv
  rw [hv] at h
  simp [truthy] at h

lemma truthy_some (b : Bool) : truthy (some b) = b := rfl

lemma truthy_none : truthy none = false := rfl

lemma findLastIdx_lt (rw : List Int) (n x : Nat) (h : findLastIdx rw n = some x) : x < n := by
  induction n with
  | zero => simp [findLastIdx] at h
  | succ k ih =>
    unfold findLastIdx at h
    split at h
    · cases h
      omega
    · exact Nat.lt_trans (ih h) (Nat.lt_succ_self k)

lemma findLastIdx_take (rw : List Int) (n k : Nat) (h : n ≤ k) :
    findLastIdx (rw.take k) n = findLastIdx rw n := by
  induction n with
  | zero => rfl
  | succ j ih =>
    unfold findLastIdx
    rw [List.get?_take (by omega), ih (by omega)]

/-- C9: out-of-bounds queries (`row`/`col` outside `[0, rows) × [0, cols)`,
with `cols` the first row's length) make `getTile` return the `-1` sentinel
and `isEndPosition` return `false`; in-bounds queries return the stored
row's lookup, and `isEndPosition` is true iff that lookup is the `Exit`
code `3`.  Both are total functions of the embedding, so neither query can
fail or throw. -/
theorem getTile_isEnd_bounds (m : List (List Int)) (col row : Int) :
    ((row < 0 ∨ col < 0 ∨ (m.length : Int) ≤ row ∨ ((m.headD []).length : Int) ≤ col) →
      getTile m col row = some (-1) ∧ isEndPosition m col row = false)
    ∧ (¬(row < 0 ∨ col < 0 ∨ (m.length : Int) ≤ row ∨ ((m.headD []).length : Int) ≤ col) →
      getTile m col row = (m.getD row.toNat []).get? col.toNat ∧
        (isEndPosition m col row = true ↔ (m.getD row.toNat []).get? col.toNat = some 3)) := by
  constructor
  · intro h
    refine ⟨getTile_oob m col row h, ?_⟩
    unfold isEndPosition
    rw [if_pos h]
  · intro h
    refine ⟨getTile_in m col row h, ?_⟩
    rw [isEnd_getTile, getTile_in m col row h]

/-- C9 witness: on the ragged map `[[0, 3], [1]]`, the query `(5, 9)` is out
of bounds (sentinel and `false`), and the in-bounds query `(1, 0)` returns
the stored `Exit` tile, which `isEndPosition` reports. -/
theorem getTile_isEnd_bounds_inst :
    getTile [[0, 3], [1]] 5 9 = some (-1) ∧ isEndPosition [[0, 3], [1]] 5 9 = false ∧
      getTile [[0, 3], [1]] 1 0 = some 3 ∧ isEndPosition [[0, 3], [1]] 1 0 = true := by
  have h1 := (getTile_isEnd_bounds [[0, 3], [1]] 5 9).1 (by decide)
  have h2 := (getTile_isEnd_bounds [[0, 3], [1]] 1 0).2 (by decide)
  exact ⟨h1.1, h1.2, h2.1.trans (by decide), h2.2.mpr (by decide)⟩

/-- C10: every column bounds check is against the FIRST row's length.  On a
row shorter than row 0, a column index can pass the bounds check yet read
past that row's end, in which case `getTile` returns `none` (the JS
`undefined`), which is neither the `-1` sentinel nor a stored tile code;
columns at or beyond the first row's length are unreachable: `getTile`
yields the sentinel and `isEndPosition` yields `false` there no matter what
longer rows store, and the fallback-exit scan of a row only ever returns an
index below `cols` and never depends on cells at index `≥ cols` (truncating
each scanned row to its first `cols` cells changes nothing). -/
theorem ragged_bounds_first_row :
    (∀ (m : List (List Int)) (col row : Int),
        ¬(row < 0 ∨ col < 0 ∨ (m.length : Int) ≤ row ∨ ((m.headD []).length : Int) ≤ col) →
        ((m.getD row.toNat []).length : Int) ≤ col →
        getTile m col row = none)
    ∧ (∀ (m : List (List Int)) (col row : Int),
        ((m.headD []).length : Int) ≤ col →
        getTile m col row = some (-1) ∧ isEndPosition m col row = false)
    ∧ (∀ (rw : List Int) (n x : Nat), findLastIdx rw n = some x → x < n)
    ∧ (∀ (rw : List Int) (n : Nat), findLastIdx (rw.take n) n = findLastIdx rw n) := by
  refine ⟨?_, ?_, findLastIdx_lt, fun rw n => findLastIdx_take rw n n le_rfl⟩
  · intro m col row h hlen
    rw [getTile_in m col row h]
    apply List.get?_eq_none.mpr
    push_neg at h
    omega
  · intro m col row h
    have hb : row < 0 ∨ col < 0 ∨ (m.length : Int) ≤ row ∨ ((m.headD []).length : Int) ≤ col :=
      Or.inr (Or.inr (Or.inr h))
    refine ⟨getTile_oob m col row hb, ?_⟩
    unfold isEndPosition
    rw [if_pos hb]

/-- C10 witness: on `[[0, 0, 0], [5], [0, 0, 0, 3]]` (first row length 3),
the in-bounds query `(2, 1)` reads past row 1 and yields `none`; column 3
of row 2 stores the `Exit` code `3` yet is invisible to `getTile` and
`isEndPosition`; the row scan over 3 columns of a longer row returns an
index below 3. -/
theorem ragged_bounds_first_row_inst :
    getTile [[0, 0, 0], [5], [0, 0, 0, 3]] 2 1 = none ∧
      getTile [[0, 0, 0], [5], [0, 0, 0, 3]] 3 2 = some (-1) ∧
      isEndPosition [[0, 0, 0], [5], [0, 0, 0, 3]] 3 2 = false ∧
      findLastIdx [1, 1, 0, 0, 0] 3 = findLastIdx [1, 1, 0] 3 := by
  refine ⟨ragged_bounds_first_row.1 _ 2 1 (by decide) (by decide), ?_, ?_, ?_⟩
  · exact (ragged_bounds_first_row.2.1 _ 3 2 (by decide)).1
  · exact (ragged_bounds_first_row.2.1 _ 3 2 (by decide)).2
  · exact (ragged_bounds_first_row.2.2.2 [1, 1, 0, 0, 0] 3).symm.trans (by decide)

/-- C5 counterexample: the claim fails on the code in two ways.  On the map
`[[0], [0, 1]]` (first row length 1, so `cols = 1`), the in-grid cell
`(0, 1)` has its RIGHT neighbour out of bounds per `getTile` (sentinel), yet
`wallCollision` is truthy there, because `wallCollision` reads the actual
row with no check against `map[0].length`; and at `(0, 0)` an UP query
returns JS `undefined` (`none`), not the boolean `false` (the source
declares no `boolean` return type on `wallCollision`). -/
theorem wallCollision_claim_cex :
    truthy (wallCollision [[0], [0, 1]] 0 1 Direction.RIGHT) = true ∧
      getTile [[0], [0, 1]] 1 1 = some (-1) ∧
      wallCollision [[0], [0, 1]] 0 0 Direction.UP = none ∧
      wallCollision [[0], [0, 1]] 0 0 Direction.UP ≠ some false := by
  decide

/-- C5 (amended): for every in-grid cell of a map none of whose rows is
longer than row 0, the truthiness of `wallCollision` in each direction
equals `getTile` at the adjacent cell being the `Wall` code `1`; and when
the adjacent cell is out of bounds, `wallCollision` yields a falsy value
(`undefined` when the adjacent row is absent, `false` otherwise), never
`true`. -/
theorem wallCollision_getTile_agree (m : List (List Int)) (col row : Int) (d : Direction)
    (hrows : ∀ rw ∈ m, rw.length ≤ (m.headD []).length)
    (h0r : 0 ≤ row) (h0c : 0 ≤ col)
    (hr : row < (m.length : Int)) (hc : col < ((m.headD []).length : Int)) :
    truthy (wallCollision m col row d) =
      decide (getTile m (neighborCell col row d).1 (neighborCell col row d).2 = some 1) ∧
    ((neighborCell col row d).2 < 0 ∨ (neighborCell col row d).1 < 0 ∨
        (m.length : Int) ≤ (neighborCell col row d).2 ∨
        ((m.headD []).length : Int) ≤ (neighborCell col row d).1 →
      wallCollision m col row d ≠ some true) := by
  have hmain : truthy (wallCollision m col row d) =
      decide (getTile m (neighborCell col row d).1 (neighborCell col row d).2 = some 1) := by
    cases d with
    | UP =>
      simp only [wallCollision, neighborCell]
      by_cases h1 : (0 : Int) ≤ row - 1
      · rw [arrGet_nonneg m _ h1, get?_eq_some_getD m _ [] (by omega), Option.map_some',
          truthy_some, decide_eq_decide, arrGet_nonneg _ _ h0c,
          getTile_in m col (row - 1) (by omega)]
      · rw [arrGet_neg m _ (by omega), Option.map_none', truthy_none]
        symm
        rw [decide_eq_false_iff_not, getTile_oob m col (row - 1) (by omega)]
        simp
    | DOWN =>
      simp only [wallCollision, neighborCell]
      by_cases h1 : row + 1 < (m.length : Int)
      · rw [arrGet_nonneg m _ (by omega), get?_eq_some_getD m _ [] (by omega), Option.map_some',
          truthy_some, decide_eq_decide, arrGet_nonneg _ _ h0c,
          getTile_in m col (row + 1) (by omega)]
      · rw [arrGet_nonneg m _ (by omega), List.get?_eq_none.mpr (by omega), Option.map_none',
          truthy_none]
        symm
        rw [decide_eq_false_iff_not, getTile_oob m col (row + 1) (by omega)]
        simp
    | LEFT =>
      simp only [wallCollision, neighborCell]
      rw [arrGet_nonneg m row h0r, get?_eq_some_getD m _ [] (by omega), Option.map_some',
        truthy_some, decide_eq_decide]
      by_cases h1 : (0 : Int) ≤ col - 1
      · rw [arrGet_nonneg _ _ h1, getTile_in m (col - 1) row (by omega)]
      · rw [arrGet_neg _ _ (by omega), getTile_oob m (col - 1) row (by omega)]
        simp
    | RIGHT =>
      simp only [wallCollision, neighborCell]
      rw [arrGet_nonneg m row h0r, get?_eq_some_getD m _ [] (by omega), Option.map_some',
        truthy_some, decide_eq_decide]
      by_cases h1 : col + 1 < ((m.headD []).length : Int)
      · rw [arrGet_nonneg _ _ (by omega), getTile_in m (col + 1) row (by omega)]
      · have hmem : m.getD row.toNat [] ∈ m :=
          List.get?_mem (get?_eq_some_getD m row.toNat [] (by omega))
        have hlen : ((m.getD row.toNat []).length : Int) ≤ col + 1 := by
          have := hrows _ hmem
          omega
        rw [arrGet_nonneg _ _ (by omega), List.get?_eq_none.mpr (by omega),
          getTile_oob m (col + 1) row (by omega)]
        simp
  refine ⟨hmain, fun hoob => truthy_ne_some_true ?_⟩
  rw [hmain, getTile_oob _ _ _ hoob]
  decide

/-- C5 witness: on the rectangular map `[[1, 0], [0, 0]]`, at cell `(0, 1)`
the truthy value of each directional query matches `getTile` of the
neighbour compared with the wall code, and the DOWN neighbour (out of
bounds) is not reported as a wall. -/
theorem wallCollision_getTile_agree_inst :
    truthy (wallCollision [[1, 0], [0, 0]] 0 1 Direction.UP) = true ∧
      truthy (wallCollision [[1, 0], [0, 0]] 0 1 Direction.RIGHT) = false ∧
      wallCollision [[1, 0], [0, 0]] 0 1 Direction.DOWN ≠ some true := by
  have h1 := wallCollision_getTile_agree [[1, 0], [0, 0]] 0 1 Direction.UP
    (by decide) (by decide) (by decide) (by decide) (by decide)
  have h2 := wallCollision_getTile_agree [[1, 0], [0, 0]] 0 1 Direction.RIGHT
    (by decide) (by decide) (by decide) (by decide) (by decide)
  have h3 := wallCollision_getTile_agree [[1, 0], [0, 0]] 0 1 Direction.DOWN
    (by decide) (by decide) (by decide) (by decide) (by decide)
  exact ⟨h1.1.trans (by decide), h2.1.trans (by decide), h3.2 (by decide)⟩

/-! ## Lemmas about the agent -/

lemma isIntDiv_iff (a b : Int) (h : b ≠ 0) : isIntDiv a b = true ↔ b ∣ a := by
  unfold isIntDiv
  rw [Bool.and_eq_true, bne_iff_ne, beq_iff_eq]
  constructor
  · rintro ⟨-, h2⟩
    exact Int.dvd_of_emod_eq_zero h2
  · intro hd
    exact ⟨h, Int.emod_eq_zero_of_dvd hd⟩

lemma move_direction (m : List (List Int)) (p : Player) :
    (move m p).direction = moveDir m p := by
  simp only [move]
  split
  · rfl
  · split <;> rfl

lemma move_requested (m : List (List Int)) (p : Player) :
    (move m p).requestedDirection = p.requestedDirection := by
  simp only [move]
  split
  · rfl
  · split <;> rfl

/-- C1: in a move step, the position is left completely unchanged iff the
agent is tile-aligned on both axes (tileSize divides x and y) and
`wallCollision` is truthy in the post-arbitration current direction;
otherwise exactly the coordinate selected by that direction changes, by
exactly `speed` (y decreases for UP, increases for DOWN; x decreases for
LEFT, increases for RIGHT), and the orthogonal coordinate is unchanged.
In particular a non-tile-aligned agent is never blocked. -/
theorem move_position_iff_blocked (m : List (List Int)) (p : Player)
    (ht : 0 < p.tileSize) (hs : 0 < p.speed) :
    (((move m p).x = p.x ∧ (move m p).y = p.y) ↔
      (p.tileSize ∣ p.x ∧ p.tileSize ∣ p.y ∧
        truthy (wallCollision m (p.x / p.tileSize) (p.y / p.tileSize) (moveDir m p)) = true)) ∧
    (¬(p.tileSize ∣ p.x ∧ p.tileSize ∣ p.y ∧
        truthy (wallCollision m (p.x / p.tileSize) (p.y / p.tileSize) (moveDir m p)) = true) →
      ((moveDir m p = Direction.UP ∧ (move m p).y = p.y - p.speed ∧ (move m p).x = p.x) ∨
       (moveDir m p = Direction.DOWN ∧ (move m p).y = p.y + p.speed ∧ (move m p).x = p.x) ∨
       (moveDir m p = Direction.LEFT ∧ (move m p).x = p.x - p.speed ∧ (move m p).y = p.y) ∨
       (moveDir m p = Direction.RIGHT ∧ (move m p).x = p.x + p.speed ∧ (move m p).y = p.y))) := by
  have hb : p.tileSize ≠ 0 := by omega
  have hcond : (isIntDiv p.x p.tileSize && isIntDiv p.y p.tileSize &&
      truthy (wallCollision m (p.x / p.tileSize) (p.y / p.tileSize) (moveDir m p))) = true ↔
      (p.tileSize ∣ p.x ∧ p.tileSize ∣ p.y ∧
        truthy (wallCollision m (p.x / p.tileSize) (p.y / p.tileSize) (moveDir m p)) = true) := by
    rw [Bool.and_eq_true, Bool.and_eq_true, isIntDiv_iff _ _ hb, isIntDiv_iff _ _ hb, and_assoc]
  by_cases h : (isIntDiv p.x p.tileSize && isIntDiv p.y p.tileSize &&
      truthy (wallCollision m (p.x / p.tileSize) (p.y / p.tileSize) (moveDir m p))) = true
  · have hm : move m p = { p with direction := moveDir m p } := by
      simp only [move]
      rw [if_pos h]
    refine ⟨?_, fun hc => absurd (hcond.mp h) hc⟩
    rw [hm]
    exact iff_of_true ⟨rfl, rfl⟩ (hcond.mp h)
  · have hc : ¬(p.tileSize ∣ p.x ∧ p.tileSize ∣ p.y ∧
        truthy (wallCollision m (p.x / p.tileSize) (p.y / p.tileSize) (moveDir m p)) = true) :=
      fun hx => h (hcond.mpr hx)
    cases hd : moveDir m p with
    | UP =>
      rw [hd] at hc
      have hm : move m p = { p with direction := Direction.UP, y := p.y - p.speed } := by
        simp only [move]
        rw [if_neg h, hd]
      have hx : (move m p).x = p.x := by rw [hm]
      have hy : (move m p).y = p.y - p.speed := by rw [hm]
      refine ⟨⟨fun hxy => ?_, fun hrhs => absurd hrhs hc⟩, fun _ => Or.inl ⟨rfl, hy, hx⟩⟩
      rw [hy] at hxy
      exfalso
      omega
    | DOWN =>
      rw [hd] at hc
      have hm : move m p = { p with direction := Direction.DOWN, y := p.y + p.speed } := by
        simp only [move]
        rw [if_neg h, hd]
      have hx : (move m p).x = p.x := by rw [hm]
      have hy : (move m p).y = p.y + p.speed := by rw [hm]
      refine ⟨⟨fun hxy => ?_, fun hrhs => absurd hrhs hc⟩,
        fun _ => Or.inr (Or.inl ⟨rfl, hy, hx⟩)⟩
      rw [hy] at hxy
      exfalso
      omega
    | LEFT =>
      rw [hd] at hc
      have hm : move m p = { p with direction := Direction.LEFT, x := p.x - p.speed } := by
        simp only [move]
        rw [if_neg h, hd]
      have hx : (move m p).x = p.x - p.speed := by rw [hm]
      have hy : (move m p).y = p.y := by rw [hm]
      refine ⟨⟨fun hxy => ?_, fun hrhs => absurd hrhs hc⟩,
        fun _ => Or.inr (Or.inr (Or.inl ⟨rfl, hx, hy⟩))⟩
      rw [hx] at hxy
      exfalso
      omega
    | RIGHT =>
      rw [hd] at hc
      have hm : move m p = { p with direction := Direction.RIGHT, x := p.x + p.speed } := by
        simp only [move]
        rw [if_neg h, hd]
      have hx : (move m p).x = p.x + p.speed := by rw [hm]
      have hy : (move m p).y = p.y := by rw [hm]
      refine ⟨⟨fun hxy => ?_, fun hrhs => absurd hrhs hc⟩,
        fun _ => Or.inr (Or.inr (Or.inr ⟨rfl, hx, hy⟩))⟩
      rw [hx] at hxy
      exfalso
      omega

/-- C1 witness: on `[[1, 0], [0, 0]]` with tile size 32 and speed 2, an
agent aligned at `(0, 32)` moving UP into the wall above stays put; the
same agent mid-transit at `(0, 34)` is not blocked and advances `y` by
exactly the speed with `x` unchanged. -/
theorem move_position_iff_blocked_inst :
    (move [[1, 0], [0, 0]] ⟨0, 32, 2, Direction.UP, Direction.UP, 32⟩).x = 0 ∧
      (move [[1, 0], [0, 0]] ⟨0, 32, 2, Direction.UP, Direction.UP, 32⟩).y = 32 ∧
      (move [[1, 0], [0, 0]] ⟨0, 34, 2, Direction.UP, Direction.UP, 32⟩).y = 32 ∧
      (move [[1, 0], [0, 0]] ⟨0, 34, 2, Direction.UP, Direction.UP, 32⟩).x = 0 := by
  have h1 := move_position_iff_blocked [[1, 0], [0, 0]]
    ⟨0, 32, 2, Direction.UP, Direction.UP, 32⟩ (by decide) (by decide)
  have h2 := move_position_iff_blocked [[1, 0], [0, 0]]
    ⟨0, 34, 2, Direction.UP, Direction.UP, 32⟩ (by decide) (by decide)
  have hb1 := h1.1.mpr ⟨dvd_zero 32, by norm_num, by decide⟩
  have hneg : ¬((32 : Int) ∣ 0 ∧ (32 : Int) ∣ 34 ∧
      truthy (wallCollision [[1, 0], [0, 0]] (0 / 32) (34 / 32)
        (moveDir [[1, 0], [0, 0]] ⟨0, 34, 2, Direction.UP, Direction.UP, 32⟩)) = true) := by
    rintro ⟨-, hy, -⟩
    omega
  rcases h2.2 hneg with ⟨-, hy, hx⟩ | ⟨hmd, -, -⟩ | ⟨hmd, -, -⟩ | ⟨hmd, -, -⟩
  · exact ⟨hb1.1, hb1.2, hy.trans (by norm_num), hx⟩
  all_goals exact absurd hmd (by decide)

/-- C2: on a turn tick (requested direction differs from the current one
and is not its exact reversal), the direction is updated to the requested
one iff the position is tile-aligned on both axes and `wallCollision` at
that cell in the requested direction is falsy; otherwise the direction is
unchanged, and in all cases the requested direction stays buffered. -/
theorem move_turn_gating (m : List (List Int)) (p : Player)
    (ht : 0 < p.tileSize)
    (hne : p.requestedDirection ≠ p.direction)
    (hrev : isReversal p.direction p.requestedDirection = false) :
    ((move m p).direction = p.requestedDirection ↔
      (p.tileSize ∣ p.x ∧ p.tileSize ∣ p.y ∧
        truthy (wallCollision m (p.x / p.tileSize) (p.y / p.tileSize)
          p.requestedDirection) = false)) ∧
    (¬(p.tileSize ∣ p.x ∧ p.tileSize ∣ p.y ∧
        truthy (wallCollision m (p.x / p.tileSize) (p.y / p.tileSize)
          p.requestedDirection) = false) →
      (move m p).direction = p.direction) ∧
    (move m p).requestedDirection = p.requestedDirection := by
  have hb : p.tileSize ≠ 0 := by omega
  have hdir : (move m p).direction = moveDir m p := move_direction m p
  have hcond : (isIntDiv p.x p.tileSize && isIntDiv p.y p.tileSize &&
      !truthy (wallCollision m (p.x / p.tileSize) (p.y / p.tileSize)
        p.requestedDirection)) = true ↔
      (p.tileSize ∣ p.x ∧ p.tileSize ∣ p.y ∧
        truthy (wallCollision m (p.x / p.tileSize) (p.y / p.tileSize)
          p.requestedDirection) = false) := by
    rw [Bool.and_eq_true, Bool.and_eq_true, isIntDiv_iff _ _ hb, isIntDiv_iff _ _ hb,
      Bool.not_eq_true', and_assoc]
  by_cases hc : (isIntDiv p.x p.tileSize && isIntDiv p.y p.tileSize &&
      !truthy (wallCollision m (p.x / p.tileSize) (p.y / p.tileSize)
        p.requestedDirection)) = true
  · have hmd : moveDir m p = p.requestedDirection := by
      unfold moveDir
      rw [if_pos hne, if_neg (by simp [hrev]), if_pos hc]
    refine ⟨?_, fun hcc => absurd (hcond.mp hc) hcc, move_requested m p⟩
    rw [hdir, hmd]
    exact iff_of_true rfl (hcond.mp hc)
  · have hmd : moveDir m p = p.direction := by
      unfold moveDir
      rw [if_pos hne, if_neg (by simp [hrev]), if_neg hc]
    refine ⟨?_, fun _ => by rw [hdir, hmd], move_requested m p⟩
    rw [hdir, hmd]
    constructor
    · intro hdd
      exact absurd hdd.symm hne
    · intro hrhs
      exact absurd (hcond.mpr hrhs) hc

/-- C2 witness: moving RIGHT and requesting UP on an open map: the turn is
honoured at the aligned position `(0, 0)` but not at the non-aligned
position `(32, 2)`, where the request stays buffered. -/
theorem move_turn_gating_inst :
    (move [[0, 0], [0, 0]] ⟨0, 0, 2, Direction.RIGHT, Direction.UP, 32⟩).direction =
        Direction.UP ∧
      (move [[0, 0], [0, 0]] ⟨32, 2, 2, Direction.RIGHT, Direction.UP, 32⟩).direction =
        Direction.RIGHT ∧
      (move [[0, 0], [0, 0]] ⟨32, 2, 2, Direction.RIGHT, Direction.UP, 32⟩).requestedDirection =
        Direction.UP := by
  have h1 := move_turn_gating [[0, 0], [0, 0]] ⟨0, 0, 2, Direction.RIGHT, Direction.UP, 32⟩
    (by decide) (by decide) (by decide)
  have h2 := move_turn_gating [[0, 0], [0, 0]] ⟨32, 2, 2, Direction.RIGHT, Direction.UP, 32⟩
    (by decide) (by decide) (by decide)
  refine ⟨h1.1.mpr ⟨dvd_zero 32, dvd_zero 32, by decide⟩, h2.2.1 ?_, h2.2.2⟩
  rintro ⟨-, hy, -⟩
  have hy2 : (32 : Int) ∣ 2 := hy
  omega

/-- C3: when the requested direction is the exact reversal of the current
one, the direction is updated to it on that tick for every map and every
position, aligned or not, with no condition on `wallCollision`; the
requested direction stays buffered. -/
theorem move_reversal_immediate (m : List (List Int)) (p : Player)
    (h : (p.direction = Direction.DOWN ∧ p.requestedDirection = Direction.UP) ∨
         (p.direction = Direction.UP ∧ p.requestedDirection = Direction.DOWN) ∨
         (p.direction = Direction.RIGHT ∧ p.requestedDirection = Direction.LEFT) ∨
         (p.direction = Direction.LEFT ∧ p.requestedDirection = Direction.RIGHT)) :
    (move m p).direction = p.requestedDirection ∧
      (move m p).requestedDirection = p.requestedDirection := by
  have hne : p.requestedDirection ≠ p.direction := by
    rcases h with ⟨h1, h2⟩ | ⟨h1, h2⟩ | ⟨h1, h2⟩ | ⟨h1, h2⟩ <;> rw [h1, h2] <;> decide
  have hrev : isReversal p.direction p.requestedDirection = true := by
    rcases h with ⟨h1, h2⟩ | ⟨h1, h2⟩ | ⟨h1, h2⟩ | ⟨h1, h2⟩ <;> rw [h1, h2] <;> rfl
  have hmd : moveDir m p = p.requestedDirection := by
    unfold moveDir
    rw [if_pos hne, if_pos hrev]
  exact ⟨(move_direction m p).trans hmd, move_requested m p⟩

/-- C3 witness: an agent at the non-aligned position `(5, 7)` moving RIGHT
that requests LEFT reverses on this very tick. -/
theorem move_reversal_immediate_inst :
    (move [[0, 0]] ⟨5, 7, 2, Direction.RIGHT, Direction.LEFT, 32⟩).direction =
        Direction.LEFT ∧
      (move [[0, 0]] ⟨5, 7, 2, Direction.RIGHT, Direction.LEFT, 32⟩).requestedDirection =
        Direction.LEFT :=
  move_reversal_immediate [[0, 0]] ⟨5, 7, 2, Direction.RIGHT, Direction.LEFT, 32⟩
    (Or.inr (Or.inr (Or.inl ⟨rfl, rfl⟩)))

/-- C4: `checkWinCondition` is true iff the agent's floored tile cell or
one of its four orthogonal neighbours holds the `Exit` code `3` (per
`getTile`; a cell only diagonally adjacent to the exit is not among these
five, so it yields false).  The embedding is a pure function of the map
and the agent, so the check modifies neither. -/
theorem checkWin_orthogonal (m : List (List Int)) (p : Player) (ht : 0 < p.tileSize) :
    (checkWinCondition m p = true ↔
      (getTile m (Int.fdiv p.x p.tileSize) (Int.fdiv p.y p.tileSize) = some 3 ∨
       getTile m (Int.fdiv p.x p.tileSize + 1) (Int.fdiv p.y p.tileSize) = some 3 ∨
       getTile m (Int.fdiv p.x p.tileSize - 1) (Int.fdiv p.y p.tileSize) = some 3 ∨
       getTile m (Int.fdiv p.x p.tileSize) (Int.fdiv p.y p.tileSize + 1) = some 3 ∨
       getTile m (Int.fdiv p.x p.tileSize) (Int.fdiv p.y p.tileSize - 1) = some 3)) := by
  simp only [checkWinCondition, Bool.or_eq_true, isEnd_getTile, or_assoc]

/-- C4 witness: at `(5, 0)` over `[[0, 3]]` the right neighbour of the tile
cell is the exit, so the win check fires; at `(0, 0)` over
`[[0, 0], [0, 3]]` the exit is only diagonally adjacent and it does not. -/
theorem checkWin_orthogonal_inst :
    checkWinCondition [[0, 3]] ⟨5, 0, 2, Direction.RIGHT, Direction.RIGHT, 32⟩ = true ∧
      checkWinCondition [[0, 0], [0, 3]] ⟨0, 0, 2, Direction.RIGHT, Direction.RIGHT, 32⟩ =
        false := by
  constructor
  · exact (checkWin_orthogonal [[0, 3]] ⟨5, 0, 2, Direction.RIGHT, Direction.RIGHT, 32⟩
      (by decide)).mpr (Or.inr (Or.inl (by decide)))
  · decide

/-! ## Lemmas about parsing -/

/-- The pure classification table of §4.1, for comparison with the
stateful parse. -/
def tileOf (ch : Char) : Int :=
  if ch = '○' then 2
  else if ch = '·' then 0
  else if ch = '┌' ∨ ch = '┐' ∨ ch = '┘' ∨ ch = '└' ∨ ch = '│' ∨ ch = '─' ∨ ch = '=' then 1
  else if ch = 'X' then 0
  else if ch = 'E' then 3
  else 0

lemma parseChar_fst (ts : Int) (x y : Nat) (ch : Char) (st : ParseSt) :
    (parseChar ts x y ch st).1 = tileOf ch := by
  unfold parseChar tileOf
  split_ifs <;> rfl

lemma parseRow_fst (ts : Int) (y : Nat) (chars : List Char) :
    ∀ (x : Nat) (st : ParseSt), (parseRow ts y x chars st).1 = chars.map tileOf := by
  induction chars with
  | nil => intro x st; rfl
  | cons ch rest ih =>
    intro x st
    simp only [parseRow, List.map_cons]
    rw [parseChar_fst, ih]

lemma parseRows_fst (ts : Int) (rows : List (List Char)) :
    ∀ (y : Nat) (st : ParseSt),
      (parseRows ts y rows st).1 = rows.map (fun rw => rw.map tileOf) := by
  induction rows with
  | nil => intro y st; rfl
  | cons rw rest ih =>
    intro y st
    simp only [parseRows, List.map_cons]
    rw [parseRow_fst, ih]

lemma getD_map_tileOf (rows : List (List Char)) (y : Nat) :
    (rows.map (fun rw => rw.map tileOf)).getD y [] = (rows.getD y []).map tileOf := by
  rw [List.getD_eq_getElem?_getD, List.getD_eq_getElem?_getD, List.getElem?_map]
  cases rows[y]? <;> rfl

/-- C7: every parsed tile follows the classification table: the marker
glyph gives `Marker` (2), the empty-path glyph gives `Empty` (0), the six
box-drawing glyphs and the auxiliary double-line glyph give `Wall` (1),
the start glyph gives `Empty`, the end glyph gives `Exit` (3), and every
other character gives `Empty`. -/
theorem parse_tile_table (ts : Int) (rows : List (List Char)) (y x : Nat) (ch : Char)
    (hc : (rows.getD y []).get? x = some ch) :
    ((parseRows ts 0 rows ⟨0, 0, 0, 0⟩).1.getD y []).get? x =
      some (if ch = '○' then 2
        else if ch = '·' then 0
        else if ch = '┌' ∨ ch = '┐' ∨ ch = '┘' ∨ ch = '└' ∨ ch = '│' ∨ ch = '─' ∨ ch = '=' then 1
        else if ch = 'X' then 0
        else if ch = 'E' then 3
        else (0 : Int)) := by
  rw [parseRows_fst, getD_map_tileOf, List.get?_map, hc]
  rfl

/-- C7 witness: a marker glyph parses to `2`, a wall glyph to `1`, the
start glyph to `0`, and an unclassified character (`q`) to `0`. -/
theorem parse_tile_table_inst :
    ((parseRows 32 0 [['○', 'q', '│', 'X']] ⟨0, 0, 0, 0⟩).1.getD 0 []).get? 0 = some 2 ∧
      ((parseRows 32 0 [['○', 'q', '│', 'X']] ⟨0, 0, 0, 0⟩).1.getD 0 []).get? 1 = some 0 ∧
      ((parseRows 32 0 [['○', 'q', '│', 'X']] ⟨0, 0, 0, 0⟩).1.getD 0 []).get? 2 = some 1 ∧
      ((parseRows 32 0 [['○', 'q', '│', 'X']] ⟨0, 0, 0, 0⟩).1.getD 0 []).get? 3 = some 0 := by
  refine ⟨?_, ?_, ?_, ?_⟩
  · exact (parse_tile_table 32 [['○', 'q', '│', 'X']] 0 0 '○' (by decide)).trans (by decide)
  · exact (parse_tile_table 32 [['○', 'q', '│', 'X']] 0 1 'q' (by decide)).trans (by decide)
  · exact (parse_tile_table 32 [['○', 'q', '│', 'X']] 0 2 '│' (by decide)).trans (by decide)
  · exact (parse_tile_table 32 [['○', 'q', '│', 'X']] 0 3 'X' (by decide)).trans (by decide)

lemma getD_of_get? {α : Type} (l : List α) (n : Nat) (a d : α) (h : l.get? n = some a) :
    l.getD n d = a := by
  rw [List.getD_eq_getElem?_getD, ← List.get?_eq_getElem?, h]
  rfl

lemma parseChar_st (ts : Int) (x y : Nat) (ch : Char) (st : ParseSt) :
    (parseChar ts x y ch st).2 = st ∨
      (ch = 'X' ∧ (parseChar ts x y ch st).2 =
        { st with startX := (x : Int) * ts + ts / 2, startY := (y : Int) * ts }) ∨
      (ch = 'E' ∧ (parseChar ts x y ch st).2 =
        { st with endX := (x : Int) * ts + ts / 2, endY := (y : Int) * ts }) := by
  unfold parseChar
  split_ifs with h1 h2 h3 h4 h5
  · exact Or.inl rfl
  · exact Or.inl rfl
  · exact Or.inl rfl
  · exact Or.inr (Or.inl ⟨h4, rfl⟩)
  · exact Or.inr (Or.inr ⟨h5, rfl⟩)
  · exact Or.inl rfl

lemma parseChar_start (ts : Int) (x y : Nat) (ch : Char) (st : ParseSt) (h : ch ≠ 'X') :
    ((parseChar ts x y ch st).2).startX = st.startX ∧
      ((parseChar ts x y ch st).2).startY = st.startY := by
  rcases parseChar_st ts x y ch st with heq | ⟨hx, -⟩ | ⟨-, heq⟩
  · rw [heq]
    exact ⟨rfl, rfl⟩
  · exact absurd hx h
  · rw [heq]
    exact ⟨rfl, rfl⟩

lemma parseChar_end (ts : Int) (x y : Nat) (ch : Char) (st : ParseSt) (h : ch ≠ 'E') :
    ((parseChar ts x y ch st).2).endX = st.endX ∧
      ((parseChar ts x y ch st).2).endY = st.endY := by
  rcases parseChar_st ts x y ch st with heq | ⟨-, heq⟩ | ⟨he, -⟩
  · rw [heq]
    exact ⟨rfl, rfl⟩
  · rw [heq]
    exact ⟨rfl, rfl⟩
  · exact absurd he h

lemma parseRow_start_notMem (ts : Int) (y : Nat) (chars : List Char) :
    ∀ (x : Nat) (st : ParseSt), 'X' ∉ chars →
      ((parseRow ts y x chars st).2).startX = st.startX ∧
        ((parseRow ts y x chars st).2).startY = st.startY := by
  induction chars with
  | nil => intro x st _; exact ⟨rfl, rfl⟩
  | cons ch rest ih =>
    intro x st h
    simp only [parseRow]
    have hch : ch ≠ 'X' := fun he => h (by rw [he] at *; exact List.mem_cons_self _ _)
    have h1 := parseChar_start ts x y ch st hch
    have h2 := ih (x + 1) (parseChar ts x y ch st).2 (fun hm => h (List.mem_cons_of_mem ch hm))
    exact ⟨h2.1.trans h1.1, h2.2.trans h1.2⟩

lemma parseRow_end_notMem (ts : Int) (y : Nat) (chars : List Char) :
    ∀ (x : Nat) (st : ParseSt), 'E' ∉ chars →
      ((parseRow ts y x chars st).2).endX = st.endX ∧
        ((parseRow ts y x chars st).2).endY = st.endY := by
  induction chars with
  | nil => intro x st _; exact ⟨rfl, rfl⟩
  | cons ch rest ih =>
    intro x st h
    simp only [parseRow]
    have hch : ch ≠ 'E' := fun he => h (by rw [he] at *; exact List.mem_cons_self _ _)
    have h1 := parseChar_end ts x y ch st hch
    have h2 := ih (x + 1) (parseChar ts x y ch st).2 (fun hm => h (List.mem_cons_of_mem ch hm))
    exact ⟨h2.1.trans h1.1, h2.2.trans h1.2⟩

lemma parseRows_start_notMem (ts : Int) (rows : List (List Char)) :
    ∀ (y : Nat) (st : ParseSt), (∀ rw ∈ rows, 'X' ∉ rw) →
      ((parseRows ts y rows st).2).startX = st.startX ∧
        ((parseRows ts y rows st).2).startY = st.startY := by
  induction rows with
  | nil => intro y st _; exact ⟨rfl, rfl⟩
  | cons rw rest ih =>
    intro y st h
    simp only [parseRows]
    have h1 := parseRow_start_notMem ts y rw 0 st (h rw (List.mem_cons_self rw rest))
    have h2 := ih (y + 1) (parseRow ts y 0 rw st).2 (fun r hr => h r (List.mem_cons_of_mem rw hr))
    exact ⟨h2.1.trans h1.1, h2.2.trans h1.2⟩

lemma parseRows_end_notMem (ts : Int) (rows : List (List Char)) :
    ∀ (y : Nat) (st : ParseSt), (∀ rw ∈ rows, 'E' ∉ rw) →
      ((parseRows ts y rows st).2).endX = st.endX ∧
        ((parseRows ts y rows st).2).endY = st.endY := by
  induction rows with
  | nil => intro y st _; exact ⟨rfl, rfl⟩
  | cons rw rest ih =>
    intro y st h
    simp only [parseRows]
    have h1 := parseRow_end_notMem ts y rw 0 st (h rw (List.mem_cons_self rw rest))
    have h2 := ih (y + 1) (parseRow ts y 0 rw st).2 (fun r hr => h r (List.mem_cons_of_mem rw hr))
    exact ⟨h2.1.trans h1.1, h2.2.trans h1.2⟩

lemma parseChar_X (ts : Int) (x y : Nat) (st : ParseSt) :
    (parseChar ts x y 'X' st).2 =
      { st with startX := (x : Int) * ts + ts / 2, startY := (y : Int) * ts } := by
  unfold parseChar
  rw [if_neg (by decide), if_neg (by decide), if_neg (by decide), if_pos rfl]

lemma parseChar_E (ts : Int) (x y : Nat) (st : ParseSt) :
    (parseChar ts x y 'E' st).2 =
      { st with endX := (x : Int) * ts + ts / 2, endY := (y : Int) * ts } := by
  unfold parseChar
  rw [if_neg (by decide), if_neg (by decide), if_neg (by decide), if_neg (by decide),
    if_pos rfl]

lemma parseRow_start_last (ts : Int) (y : Nat) (chars : List Char) :
    ∀ (c x : Nat) (st : ParseSt), chars.get? c = some 'X' →
      (∀ i, c < i → chars.get? i ≠ some 'X') →
      ((parseRow ts y x chars st).2).startX = ((x + c : Nat) : Int) * ts + ts / 2 ∧
        ((parseRow ts y x chars st).2).startY = (y : Int) * ts := by
  induction chars with
  | nil => intro c x st hc _; simp at hc
  | cons ch rest ih =>
    intro c x st hc hafter
    simp only [parseRow]
    cases c with
    | zero =>
      have hch : ch = 'X' := by simpa using hc
      have hrest : 'X' ∉ rest := by
        intro hm
        obtain ⟨i, hi⟩ := List.mem_iff_get?.mp hm
        exact hafter (i + 1) (Nat.succ_pos i) (by simpa using hi)
      subst hch
      have h2 := parseRow_start_notMem ts y rest (x + 1)
        (parseChar ts x y 'X' st).2 hrest
      rw [parseChar_X] at h2
      exact ⟨h2.1, h2.2⟩
    | succ k =>
      have hc2 : rest.get? k = some 'X' := by simpa using hc
      have hafter2 : ∀ i, k < i → rest.get? i ≠ some 'X' := by
        intro i hi
        have := hafter (i + 1) (by omega)
        simpa using this
      have h2 := ih k (x + 1) (parseChar ts x y ch st).2 hc2 hafter2
      have hx : x + 1 + k = x + (k + 1) := by omega
      rw [hx] at h2
      exact h2

lemma parseRow_end_last (ts : Int) (y : Nat) (chars : List Char) :
    ∀ (c x : Nat) (st : ParseSt), chars.get? c = some 'E' →
      (∀ i, c < i → chars.get? i ≠ some 'E') →
      ((parseRow ts y x chars st).2).endX = ((x + c : Nat) : Int) * ts + ts / 2 ∧
        ((parseRow ts y x chars st).2).endY = (y : Int) * ts := by
  induction chars with
  | nil => intro c x st hc _; simp at hc
  | cons ch rest ih =>
    intro c x st hc hafter
    simp only [parseRow]
    cases c with
    | zero =>
      have hch : ch = 'E' := by simpa using hc
      have hrest : 'E' ∉ rest := by
        intro hm
        obtain ⟨i, hi⟩ := List.mem_iff_get?.mp hm
        exact hafter (i + 1) (Nat.succ_pos i) (by simpa using hi)
      subst hch
      have h2 := parseRow_end_notMem ts y rest (x + 1)
        (parseChar ts x y 'E' st).2 hrest
      rw [parseChar_E] at h2
      exact ⟨h2.1, h2.2⟩
    | succ k =>
      have hc2 : rest.get? k = some 'E' := by simpa using hc
      have hafter2 : ∀ i, k < i → rest.get? i ≠ some 'E' := by
        intro i hi
        have := hafter (i + 1) (by omega)
        simpa using this
      have h2 := ih k (x + 1) (parseChar ts x y ch st).2 hc2 hafter2
      have hx : x + 1 + k = x + (k + 1) := by omega
      rw [hx] at h2
      exact h2

lemma parseRows_start_last (ts : Int) (rows : List (List Char)) :
    ∀ (r y c : Nat) (st : ParseSt), (rows.getD r []).get? c = some 'X' →
      (∀ i, c < i → (rows.getD r []).get? i ≠ some 'X') →
      (∀ j i, r < j → (rows.getD j []).get? i ≠ some 'X') →
      ((parseRows ts y rows st).2).startX = (c : Int) * ts + ts / 2 ∧
        ((parseRows ts y rows st).2).startY = ((y + r : Nat) : Int) * ts := by
  induction rows with
  | nil => intro r y c st hc _ _; simp at hc
  | cons rw rest ih =>
    intro r y c st hc hafter hrows
    simp only [parseRows]
    cases r with
    | zero =>
      have hc1 : rw.get? c = some 'X' := hc
      have hrest : ∀ r2 ∈ rest, 'X' ∉ r2 := by
        intro r2 hr2 hm
        obtain ⟨j, hj⟩ := List.mem_iff_get?.mp hr2
        obtain ⟨i, hi⟩ := List.mem_iff_get?.mp hm
        apply hrows (j + 1) i (by omega)
        show (rest.getD j []).get? i = some 'X'
        rw [getD_of_get? rest j r2 [] hj]
        exact hi
      have h1 := parseRow_start_last ts y rw c 0 st hc1 hafter
      have h2 := parseRows_start_notMem ts rest (y + 1) (parseRow ts y 0 rw st).2 hrest
      refine ⟨(h2.1.trans h1.1).trans (by norm_num), h2.2.trans h1.2⟩
    | succ k =>
      have hc2 : (rest.getD k []).get? c = some 'X' := hc
      have hafter2 : ∀ i, c < i → (rest.getD k []).get? i ≠ some 'X' := hafter
      have hrows2 : ∀ j i, k < j → (rest.getD j []).get? i ≠ some 'X' := by
        intro j i hj
        exact hrows (j + 1) i (by omega)
      have h2 := ih k (y + 1) c (parseRow ts y 0 rw st).2 hc2 hafter2 hrows2
      refine ⟨h2.1, h2.2.trans ?_⟩
      rw [show y + 1 + k = y + (k + 1) from by omega]

lemma parseRows_end_last (ts : Int) (rows : List (List Char)) :
    ∀ (r y c : Nat) (st : ParseSt), (rows.getD r []).get? c = some 'E' →
      (∀ i, c < i → (rows.getD r []).get? i ≠ some 'E') →
      (∀ j i, r < j → (rows.getD j []).get? i ≠ some 'E') →
      ((parseRows ts y rows st).2).endX = (c : Int) * ts + ts / 2 ∧
        ((parseRows ts y rows st).2).endY = ((y + r : Nat) : Int) * ts := by
  induction rows with
  | nil => intro r y c st hc _ _; simp at hc
  | cons rw rest ih =>
    intro r y c st hc hafter hrows
    simp only [parseRows]
    cases r with
    | zero =>
      have hc1 : rw.get? c = some 'E' := hc
      have hrest : ∀ r2 ∈ rest, 'E' ∉ r2 := by
        intro r2 hr2 hm
        obtain ⟨j, hj⟩ := List.mem_iff_get?.mp hr2
        obtain ⟨i, hi⟩ := List.mem_iff_get?.mp hm
        apply hrows (j + 1) i (by omega)
        show (rest.getD j []).get? i = some 'E'
        rw [getD_of_get? rest j r2 [] hj]
        exact hi
      have h1 := parseRow_end_last ts y rw c 0 st hc1 hafter
      have h2 := parseRows_end_notMem ts rest (y + 1) (parseRow ts y 0 rw st).2 hrest
      refine ⟨(h2.1.trans h1.1).trans (by norm_num), h2.2.trans h1.2⟩
    | succ k =>
      have hc2 : (rest.getD k []).get? c = some 'E' := hc
      have hafter2 : ∀ i, c < i → (rest.getD k []).get? i ≠ some 'E' := hafter
      have hrows2 : ∀ j i, k < j → (rest.getD j []).get? i ≠ some 'E' := by
        intro j i hj
        exact hrows (j + 1) i (by omega)
      have h2 := ih k (y + 1) c (parseRow ts y 0 rw st).2 hc2 hafter2 hrows2
      refine ⟨h2.1, h2.2.trans ?_⟩
      rw [show y + 1 + k = y + (k + 1) from by omega]

lemma get?_some_lt {α : Type} {l : List α} {n : Nat} {a : α} (h : l.get? n = some a) :
    n < l.length := by
  by_contra hh
  rw [List.get?_eq_none.mpr (by omega)] at h
  simp at h

lemma getD_row_lt {rows : List (List Char)} {r c : Nat} {a : Char}
    (h : (rows.getD r []).get? c = some a) : r < rows.length := by
  by_contra hh
  rw [List.getD_eq_getElem?_getD, List.getElem?_eq_none (by omega)] at h
  simp at h

lemma loadMap_startX (ts : Int) (rows : List (List Char)) :
    (loadMap ts rows).startX = ((parseRows ts 0 rows ⟨0, 0, 0, 0⟩).2).startX := by
  simp only [loadMap]
  split <;> rfl

lemma loadMap_startY (ts : Int) (rows : List (List Char)) :
    (loadMap ts rows).startY = ((parseRows ts 0 rows ⟨0, 0, 0, 0⟩).2).startY := by
  simp only [loadMap]
  split <;> rfl

lemma loadMap_end_nofallback (ts : Int) (rows : List (List Char))
    (h : ¬(((parseRows ts 0 rows ⟨0, 0, 0, 0⟩).2).endX = 0 ∧
      ((parseRows ts 0 rows ⟨0, 0, 0, 0⟩).2).endY = 0)) :
    (loadMap ts rows).endX = ((parseRows ts 0 rows ⟨0, 0, 0, 0⟩).2).endX ∧
      (loadMap ts rows).endY = ((parseRows ts 0 rows ⟨0, 0, 0, 0⟩).2).endY := by
  simp only [loadMap]
  rw [if_neg h]
  exact ⟨rfl, rfl⟩

/-- C8: when the start glyph appears at (row r, column c) and nowhere else,
`getStartPosition` is exactly `(c * tileSize + tileSize / 2, r * tileSize)`
(x tile-centred, y tile-top-aligned); the same asymmetric convention holds
for `getEndPosition` when the end glyph appears at (r, c) and nowhere
else. -/
theorem loadMap_start_end_coords (ts : Int) (rows : List (List Char))
    (ht : 0 < ts) (htwo : 2 ∣ ts) :
    (∀ r c, (rows.getD r []).get? c = some 'X' →
        (∀ j, j < rows.length → ∀ i, i < (rows.getD j []).length →
          (rows.getD j []).get? i = some 'X' → j = r ∧ i = c) →
        getStartPosition (loadMap ts rows) = ((c : Int) * ts + ts / 2, (r : Int) * ts)) ∧
    (∀ r c, (rows.getD r []).get? c = some 'E' →
        (∀ j, j < rows.length → ∀ i, i < (rows.getD j []).length →
          (rows.getD j []).get? i = some 'E' → j = r ∧ i = c) →
        getEndPosition (loadMap ts rows) = ((c : Int) * ts + ts / 2, (r : Int) * ts)) := by
  have hts2 : 1 ≤ ts / 2 := by
    obtain ⟨k, hk⟩ := htwo
    subst hk
    rw [Int.mul_ediv_cancel_left _ (by norm_num)]
    omega
  constructor
  · intro r c hc huniq
    have hafter : ∀ i, c < i → (rows.getD r []).get? i ≠ some 'X' := by
      intro i hi hx
      have hil : i < (rows.getD r []).length := get?_some_lt hx
      have hrl : r < rows.length := getD_row_lt hx
      have := (huniq r hrl i hil hx).2
      omega
    have hrows : ∀ j i, r < j → (rows.getD j []).get? i ≠ some 'X' := by
      intro j i hj hx
      have hil : i < (rows.getD j []).length := get?_some_lt hx
      have hjl : j < rows.length := getD_row_lt hx
      have := (huniq j hjl i hil hx).1
      omega
    have hlast := parseRows_start_last ts rows r 0 c ⟨0, 0, 0, 0⟩ hc hafter hrows
    unfold getStartPosition
    rw [loadMap_startX, loadMap_startY, hlast.1, hlast.2]
    norm_num
  · intro r c hc huniq
    have hafter : ∀ i, c < i → (rows.getD r []).get? i ≠ some 'E' := by
      intro i hi hx
      have hil : i < (rows.getD r []).length := get?_some_lt hx
      have hrl : r < rows.length := getD_row_lt hx
      have := (huniq r hrl i hil hx).2
      omega
    have hrows : ∀ j i, r < j → (rows.getD j []).get? i ≠ some 'E' := by
      intro j i hj hx
      have hil : i < (rows.getD j []).length := get?_some_lt hx
      have hjl : j < rows.length := getD_row_lt hx
      have := (huniq j hjl i hil hx).1
      omega
    have hlast := parseRows_end_last ts rows r 0 c ⟨0, 0, 0, 0⟩ hc hafter hrows
    have hpos : 0 < (c : Int) * ts + ts / 2 := by
      have : (0 : Int) ≤ (c : Int) * ts := mul_nonneg (by positivity) (le_of_lt ht)
      omega
    have hneq : ¬(((parseRows ts 0 rows ⟨0, 0, 0, 0⟩).2).endX = 0 ∧
        ((parseRows ts 0 rows ⟨0, 0, 0, 0⟩).2).endY = 0) := by
      rintro ⟨hz, -⟩
      rw [hlast.1] at hz
      omega
    have hl := loadMap_end_nofallback ts rows hneq
    unfold getEndPosition
    rw [hl.1, hl.2, hlast.1, hlast.2]
    norm_num

/-- C8 witness: in the one-row layout `X E`, with tile size 32 the start is
`(0*32 + 16, 0*32) = (16, 0)` and the end is `(1*32 + 16, 0*32) =
(48, 0)`. -/
theorem loadMap_start_end_coords_inst :
    getStartPosition (loadMap 32 [['X', 'E']]) = (16, 0) ∧
      getEndPosition (loadMap 32 [['X', 'E']]) = (48, 0) := by
  have h := loadMap_start_end_coords 32 [['X', 'E']] (by norm_num) (by norm_num)
  exact ⟨(h.1 0 0 (by decide) (by decide)).trans (by decide),
    (h.2 0 1 (by decide) (by decide)).trans (by decide)⟩

/-! ## The fallback-exit scan -/

/-- The cell the fallback scan promotes: the first cell, in the order last
row upward and, within a row, last scanned column leftward, that holds the
`Empty` (0) or `Marker` (2) code. -/
def scanFirst (m : List (List Int)) (cols y x : Nat) : Prop :=
  y < m.length ∧ x < cols ∧ isPathCell ((m.getD y []).get? x) = true ∧
    ∀ j, j < m.length → ∀ i, i < cols →
      (y < j ∨ (j = y ∧ x < i)) → isPathCell ((m.getD j []).get? i) = false

/-- Number of `Exit` (3) cells in a grid. -/
def exitCount (m : List (List Int)) : Nat := (m.map (fun rw => rw.count 3)).sum

lemma isPathCell_iff (v : Option Int) : isPathCell v = true ↔ v = some 0 ∨ v = some 2 := by
  unfold isPathCell
  rw [Bool.or_eq_true, beq_iff_eq, beq_iff_eq]

lemma findLastIdx_none (rw : List Int) (n : Nat)
    (h : ∀ i, i < n → isPathCell (rw.get? i) = false) : findLastIdx rw n = none := by
  induction n with
  | zero => rfl
  | succ k ih =>
    have hk := h k (Nat.lt_succ_self k)
    simp only [findLastIdx, hk, Bool.false_eq_true, if_false]
    exact ih (fun i hi => h i (by omega))

lemma findLastIdx_some (rw : List Int) (n x : Nat) (hx : x < n)
    (hpath : isPathCell (rw.get? x) = true)
    (hafter : ∀ i, x < i → i < n → isPathCell (rw.get? i) = false) :
    findLastIdx rw n = some x := by
  induction n with
  | zero => omega
  | succ k ih =>
    by_cases hxk : x = k
    · subst hxk
      simp only [findLastIdx]
      rw [hpath, if_pos rfl]
    · have hk := hafter k (by omega) (Nat.lt_succ_self k)
      simp only [findLastIdx, hk, Bool.false_eq_true, if_false]
      exact ih (by omega) (fun i h1 h2 => hafter i h1 (by omega))

lemma scanStep_finds (ts : Int) (cols : Nat) (m : List (List Int)) (y x : Nat)
    (ht : 0 < ts) (hts2 : 1 ≤ ts / 2) (hf : scanFirst m cols y x) :
    ∀ n, n ≤ m.length → y < n →
      scanStep ts cols n ⟨0, 0, m⟩ =
        ⟨(x : Int) * ts + ts / 2, (y : Int) * ts, setCell m y x 3⟩ := by
  obtain ⟨hy, hx, hpath, hmin⟩ := hf
  intro n
  induction n with
  | zero => omega
  | succ k ih =>
    intro hn hyk
    by_cases hky : y = k
    · subst hky
      have hfind : findLastIdx (m.getD y []) cols = some x :=
        findLastIdx_some _ _ _ hx hpath
          (fun i h1 h2 => hmin y hy i h2 (Or.inr ⟨rfl, h1⟩))
      simp only [scanStep, hfind]
      rw [if_neg]
      rintro ⟨hz, -⟩
      have hnn : (0 : Int) ≤ (x : Int) * ts := mul_nonneg (by positivity) (le_of_lt ht)
      omega
    · have hylt : y < k := by omega
      have hnone : findLastIdx (m.getD k []) cols = none :=
        findLastIdx_none _ _ (fun i hi => hmin k (by omega) i hi (Or.inl hylt))
      simp only [scanStep, hnone]
      split
      · exact ih (by omega) hylt
      · next hcon => simp at hcon

lemma count_set_add (l : List Int) : ∀ (x : Nat) (a : Int), l.get? x = some a → a ≠ 3 →
    (l.set x 3).count 3 = l.count 3 + 1 := by
  induction l with
  | nil => intro x a ha _; simp at ha
  | cons b t ih =>
    intro x a ha hne
    cases x with
    | zero =>
      have hb : b = a := by simpa using ha
      subst hb
      simp [List.set, List.count_cons, hne]
    | succ k =>
      have ht2 : t.get? k = some a := by simpa using ha
      simp [List.set, List.count_cons, ih k a ht2 hne]
      omega

lemma exitCount_cons (r : List Int) (t : List (List Int)) :
    exitCount (r :: t) = r.count 3 + exitCount t := by
  simp [exitCount]

lemma exitCount_set (m : List (List Int)) : ∀ (y : Nat) (rw rw2 : List Int),
    m.get? y = some rw →
    exitCount (m.set y rw2) + rw.count 3 = exitCount m + rw2.count 3 := by
  induction m with
  | nil => intro y rw rw2 h; simp at h
  | cons r t ih =>
    intro y rw rw2 h
    cases y with
    | zero =>
      have hr : r = rw := by simpa using h
      subst hr
      simp only [List.set, exitCount_cons]
      omega
    | succ k =>
      have h2 : t.get? k = some rw := by simpa using h
      simp only [List.set, exitCount_cons]
      have := ih k rw rw2 h2
      omega

lemma exitCount_zero (m : List (List Int)) (h : ∀ rw ∈ m, (3 : Int) ∉ rw) :
    exitCount m = 0 := by
  unfold exitCount
  apply List.sum_eq_zero
  intro n hn
  obtain ⟨rw, hrw, hcount⟩ := List.mem_map.mp hn
  rw [← hcount]
  exact List.count_eq_zero.mpr (h rw hrw)

lemma tileOf_ne_three (ch : Char) (h : ch ≠ 'E') : tileOf ch ≠ 3 := by
  intro h3
  unfold tileOf at h3
  split_ifs at h3 <;> simp_all

lemma parsed_no_three (ts : Int) (rows : List (List Char)) (hE : ∀ rw ∈ rows, 'E' ∉ rw) :
    ∀ r ∈ (parseRows ts 0 rows ⟨0, 0, 0, 0⟩).1, (3 : Int) ∉ r := by
  rw [parseRows_fst]
  intro r hr
  obtain ⟨rw, hrw, hmap⟩ := List.mem_map.mp hr
  subst hmap
  intro h3
  obtain ⟨ch, hch, htile⟩ := List.mem_map.mp h3
  exact tileOf_ne_three ch (fun he => hE rw hrw (he ▸ hch)) htile

lemma loadMap_fallback (ts : Int) (rows : List (List Char))
    (h1 : ((parseRows ts 0 rows ⟨0, 0, 0, 0⟩).2).endX = 0)
    (h2 : ((parseRows ts 0 rows ⟨0, 0, 0, 0⟩).2).endY = 0) :
    loadMap ts rows =
      ⟨(scanStep ts ((parseRows ts 0 rows ⟨0, 0, 0, 0⟩).1.headD []).length
          (parseRows ts 0 rows ⟨0, 0, 0, 0⟩).1.length
          ⟨0, 0, (parseRows ts 0 rows ⟨0, 0, 0, 0⟩).1⟩).map,
        ((parseRows ts 0 rows ⟨0, 0, 0, 0⟩).2).startX,
        ((parseRows ts 0 rows ⟨0, 0, 0, 0⟩).2).startY,
        (scanStep ts ((parseRows ts 0 rows ⟨0, 0, 0, 0⟩).1.headD []).length
          (parseRows ts 0 rows ⟨0, 0, 0, 0⟩).1.length
          ⟨0, 0, (parseRows ts 0 rows ⟨0, 0, 0, 0⟩).1⟩).endX,
        (scanStep ts ((parseRows ts 0 rows ⟨0, 0, 0, 0⟩).1.headD []).length
          (parseRows ts 0 rows ⟨0, 0, 0, 0⟩).1.length
          ⟨0, 0, (parseRows ts 0 rows ⟨0, 0, 0, 0⟩).1⟩).endY⟩ := by
  simp only [loadMap]
  rw [if_pos ⟨h1, h2⟩, h1, h2]

/-- C6: for a layout with no end glyph, the fallback scan promotes exactly
the first `Empty`-or-`Marker` cell in bottom-to-top, right-to-left order
(columns limited to the first row's length) to `Exit`, records its
coordinates with the `(col * tileSize + tileSize / 2, row * tileSize)`
convention, and no other cell becomes `Exit`: the final grid is the parsed
grid with that single cell set to `3`, and its exit count is exactly 1. -/
theorem loadMap_fallback_exit (ts : Int) (rows : List (List Char)) (y x : Nat)
    (ht : 0 < ts) (htwo : 2 ∣ ts)
    (hE : ∀ rw ∈ rows, 'E' ∉ rw)
    (hf : scanFirst (parseRows ts 0 rows ⟨0, 0, 0, 0⟩).1
      ((parseRows ts 0 rows ⟨0, 0, 0, 0⟩).1.headD []).length y x) :
    (loadMap ts rows).map = setCell (parseRows ts 0 rows ⟨0, 0, 0, 0⟩).1 y x 3 ∧
      (loadMap ts rows).endX = (x : Int) * ts + ts / 2 ∧
      (loadMap ts rows).endY = (y : Int) * ts ∧
      exitCount (loadMap ts rows).map = 1 := by
  have hts2 : 1 ≤ ts / 2 := by
    obtain ⟨k, hk⟩ := htwo
    subst hk
    rw [Int.mul_ediv_cancel_left _ (by norm_num)]
    omega
  have hend := parseRows_end_notMem ts rows 0 ⟨0, 0, 0, 0⟩ hE
  have hscan := scanStep_finds ts ((parseRows ts 0 rows ⟨0, 0, 0, 0⟩).1.headD []).length
    (parseRows ts 0 rows ⟨0, 0, 0, 0⟩).1 y x ht hts2 hf
    (parseRows ts 0 rows ⟨0, 0, 0, 0⟩).1.length le_rfl hf.1
  have hload := loadMap_fallback ts rows hend.1 hend.2
  rw [hload, hscan]
  refine ⟨rfl, rfl, rfl, ?_⟩
  show exitCount (setCell (parseRows ts 0 rows ⟨0, 0, 0, 0⟩).1 y x 3) = 1
  have hrowget : (parseRows ts 0 rows ⟨0, 0, 0, 0⟩).1.get? y =
      some ((parseRows ts 0 rows ⟨0, 0, 0, 0⟩).1.getD y []) :=
    get?_eq_some_getD _ _ _ hf.1
  have hpath := hf.2.2.1
  rw [isPathCell_iff] at hpath
  have hone : (((parseRows ts 0 rows ⟨0, 0, 0, 0⟩).1.getD y []).set x 3).count 3 =
      ((parseRows ts 0 rows ⟨0, 0, 0, 0⟩).1.getD y []).count 3 + 1 := by
    rcases hpath with h | h
    · exact count_set_add _ x 0 h (by norm_num)
    · exact count_set_add _ x 2 h (by norm_num)
  have hzero : exitCount (parseRows ts 0 rows ⟨0, 0, 0, 0⟩).1 = 0 :=
    exitCount_zero _ (parsed_no_three ts rows hE)
  have hrowzero : ((parseRows ts 0 rows ⟨0, 0, 0, 0⟩).1.getD y []).count 3 = 0 := by
    unfold exitCount at hzero
    refine List.sum_eq_zero_iff.mp hzero _ ?_
    exact List.mem_map.mpr ⟨_, List.get?_mem hrowget, rfl⟩
  have hst := exitCount_set (parseRows ts 0 rows ⟨0, 0, 0, 0⟩).1 y
    ((parseRows ts 0 rows ⟨0, 0, 0, 0⟩).1.getD y [])
    (((parseRows ts 0 rows ⟨0, 0, 0, 0⟩).1.getD y []).set x 3) hrowget
  unfold setCell
  omega

/-- C6 witness: the two-row layout with a wall-glyph top row and an
empty-glyph bottom row (the spec's schematic `##` over `..`): the promoted
exit is the bottom-right cell (row 1, col 1), the grid becomes
`[[1, 1], [0, 3]]`, and the recorded coordinate is `(48, 32)` for tile
size 32. -/
theorem loadMap_fallback_exit_inst :
    (loadMap 32 [['─', '─'], ['·', '·']]).map = [[1, 1], [0, 3]] ∧
      (loadMap 32 [['─', '─'], ['·', '·']]).endX = 48 ∧
      (loadMap 32 [['─', '─'], ['·', '·']]).endY = 32 ∧
      exitCount (loadMap 32 [['─', '─'], ['·', '·']]).map = 1 := by
  have h := loadMap_fallback_exit 32 [['─', '─'], ['·', '·']] 1 1
    (by norm_num) (by norm_num) (by decide)
    (by unfold scanFirst; exact ⟨by decide, by decide, by decide, by decide⟩)
  exact ⟨h.1.trans (by decide), h.2.1.trans (by norm_num), h.2.2.1.trans (by norm_num),
    h.2.2.2⟩
